import Mathlib

/-!
Shallow embedding of the redpanda RPC client transport headers
(src/v/rpc/transport.h), the async iteration helpers
(src/v/ssx/future-util.h) and the kafka join-group dispatcher
(src/v/kafka/requests/join_group_request.cc), with theorems checking the
natural-language specification against the code.

Seastar futures are embedded as the Except monad; instrumented variants
additionally return a trace of the operations performed, so that claims of
the form "X is never invoked on this path" are statable.
-/

namespace Rpc

/-- Wire header fields, as laid out in rpc/types.h and the wire-format
section of the spec: version, header_checksum, compression, payload_size,
meta (method id on requests, status on responses), correlation_id,
payload_checksum. All fields are fixed-width unsigned integers, embedded as
Nat. -/
structure Header where
  version : Nat
  header_checksum : Nat
  compression : Nat
  payload_size : Nat
  meta : Nat
  correlation_id : Nat
  payload_checksum : Nat
deriving Repr, DecidableEq

/-- Client error codes from rpc/errc.h used by the transport paths in the
excerpt. -/
inductive Errc where
  | disconnected
  | client_request_timeout
  | service_error
  | method_not_found
  | shutting_down
deriving Repr, DecidableEq

/-- Status code carried in a response header meta field: numeric values per
the wire specification (0 = success, 1 = method_not_found,
2 = request_timeout, 3 = server_error, any other value reserved). -/
def statusSuccess : Nat := 0

/-- Status value for method_not_found. -/
def statusMethodNotFound : Nat := 1

/-- Status value for request_timeout. -/
def statusRequestTimeout : Nat := 2

/-- Status value for server_error. -/
def statusServerError : Nat := 3

/-- client_context carries the response header and the decoded payload
(rpc/types.h): map_result constructs it from the header and moves the
decoded data in. -/
structure ClientContext (T : Type) where
  hdr : Header
  data : T
deriving Repr, DecidableEq

/-- Embedding of internal::map_result (rpc/transport.h lines 141-165): cast
hdr.meta to a status and map it to the client outcome, testing success,
request_timeout, server_error and method_not_found in that order, with any
other value falling through to service_error. -/
def map_result {T : Type} (hdr : Header) (data : T) :
    Except Errc (ClientContext T) :=
  let st := hdr.meta
  if st = statusSuccess then
    Except.ok ⟨hdr, data⟩
  else if st = statusRequestTimeout then
    Except.error Errc.client_request_timeout
  else if st = statusServerError then
    Except.error Errc.service_error
  else if st = statusMethodNotFound then
    Except.error Errc.method_not_found
  else
    Except.error Errc.service_error

/-- State of base_transport relevant to is_valid: the optional connected
socket _fd (modelled by an id) and whether the input stream _in has hit
end-of-file. -/
structure BaseTransportState where
  fd : Option Nat
  in_eof : Bool
deriving Repr, DecidableEq

/-- Embedding of base_transport::is_valid (rpc/transport.h line 66):
return _fd && !_in.eof(). -/
def is_valid (st : BaseTransportState) : Bool :=
  st.fd.isSome && !st.in_eof

/-- Operations observed on the response path of send_typed: whether
parse_type was invoked, whether internal::map_result was invoked, and how
many bytes were read from the connection. -/
structure RecvTrace where
  parse_invoked : Bool
  map_invoked : Bool
  bytes_read : Nat
deriving Repr, DecidableEq

/-- Embedding of the continuation of transport::send_typed on the result of
do_send (rpc/transport.h lines 187-197): if the untyped send resolved with
an error, return that error as a ready future; otherwise run
parse_type over the input stream with the streaming context's header,
signal body parse, and map the header status through internal::map_result.
The streaming context is represented by the header it exposes; the parse
step is a parameter giving the decoded value and the number of bytes it
consumes from the stream. -/
def send_typed_on_sent {T : Type} (parse : Header → T × Nat)
    (sctx : Except Errc Header) :
    Except Errc (ClientContext T) × RecvTrace :=
  match sctx with
  | Except.error e => (Except.error e, ⟨false, false, 0⟩)
  | Except.ok hdr =>
      let p := parse hdr
      (map_result hdr p.1, ⟨true, true, p.2⟩)

end Rpc

namespace Rpc

/-- C2: map_result maps a response header status to the client outcome
exactly as the status table states: for every payload value, success yields
a successful client_context carrying that payload, request_timeout yields
client_request_timeout, server_error yields service_error,
method_not_found yields method_not_found, and every other status value
yields service_error. -/
theorem map_result_status_table {T : Type} (hdr : Header) (data : T) :
    (hdr.meta = statusSuccess →
      map_result hdr data = Except.ok ⟨hdr, data⟩)
  ∧ (hdr.meta = statusRequestTimeout →
      map_result hdr data = Except.error Errc.client_request_timeout)
  ∧ (hdr.meta = statusServerError →
      map_result hdr data = Except.error Errc.service_error)
  ∧ (hdr.meta = statusMethodNotFound →
      map_result hdr data = Except.error Errc.method_not_found)
  ∧ (hdr.meta ≠ statusSuccess → hdr.meta ≠ statusRequestTimeout →
      hdr.meta ≠ statusServerError → hdr.meta ≠ statusMethodNotFound →
      map_result hdr data = Except.error Errc.service_error) := by
  unfold map_result statusSuccess statusRequestTimeout statusServerError
    statusMethodNotFound
  refine ⟨?_, ?_, ?_, ?_, ?_⟩
  · intro h; simp [h]
  · intro h; simp [h]
  · intro h; simp [h]
  · intro h; simp [h]
  · intro h0 h2 h3 h1
    simp [if_neg h0, if_neg h2, if_neg h3, if_neg h1]

/-- Witness for C2: the five rows of the status table evaluated at concrete
headers with payload 7, including an unknown status value 9. -/
theorem map_result_status_table_witness :
    map_result ⟨0, 0, 0, 0, 0, 0, 0⟩ (7 : Nat)
      = Except.ok ⟨⟨0, 0, 0, 0, 0, 0, 0⟩, 7⟩
  ∧ map_result ⟨0, 0, 0, 0, 2, 0, 0⟩ (7 : Nat)
      = Except.error Errc.client_request_timeout
  ∧ map_result ⟨0, 0, 0, 0, 3, 0, 0⟩ (7 : Nat)
      = Except.error Errc.service_error
  ∧ map_result ⟨0, 0, 0, 0, 1, 0, 0⟩ (7 : Nat)
      = Except.error Errc.method_not_found
  ∧ map_result ⟨0, 0, 0, 0, 9, 0, 0⟩ (7 : Nat)
      = Except.error Errc.service_error := by
  refine ⟨?_, ?_, ?_, ?_, ?_⟩
  · exact (map_result_status_table ⟨0, 0, 0, 0, 0, 0, 0⟩ (7 : Nat)).1 rfl
  · exact (map_result_status_table ⟨0, 0, 0, 0, 2, 0, 0⟩ (7 : Nat)).2.1 rfl
  · exact (map_result_status_table ⟨0, 0, 0, 0, 3, 0, 0⟩ (7 : Nat)).2.2.1 rfl
  · exact (map_result_status_table ⟨0, 0, 0, 0, 1, 0, 0⟩ (7 : Nat)).2.2.2.1 rfl
  · exact (map_result_status_table ⟨0, 0, 0, 0, 9, 0, 0⟩ (7 : Nat)).2.2.2.2
      (by decide) (by decide) (by decide) (by decide)

/-- C8: base_transport::is_valid returns true if and only if the transport
holds a socket and its input stream is not at end-of-file, for every state
of the transport. -/
theorem is_valid_iff (st : BaseTransportState) :
    is_valid st = true ↔ (st.fd.isSome = true ∧ st.in_eof = false) := by
  unfold is_valid
  constructor
  · intro h
    rcases Bool.and_eq_true_iff.mp h with ⟨h1, h2⟩
    exact ⟨h1, by simpa using h2⟩
  · intro h
    rcases h with ⟨h1, h2⟩
    simp [h1, h2]

/-- C9: in send_typed, if the untyped send (do_send) resolves with an
error, send_typed returns that same error immediately, never invokes
parse_type on the input stream, never invokes map_result, and reads no
bytes from the connection. -/
theorem send_typed_error_short_circuit {T : Type} (parse : Header → T × Nat)
    (e : Errc) :
    send_typed_on_sent parse (Except.error e)
      = (Except.error e, ⟨false, false, 0⟩) := rfl

end Rpc

namespace Ssx

/-- Embedding of ssx::async_transform (future-util.h lines 47-69), with
seastar futures embedded as Except: do_for_each invokes func on each
element in input order, fully awaiting the future returned for one element
before invoking func on the next, and pushes each result onto the results
vector; a failed future aborts the loop and is returned as the failed
result, discarding the partially collected vector. The first component is
the trace of elements on which func was invoked, in invocation order. -/
def async_transform {α β ε : Type} (func : α → Except ε β) :
    List α → List α × Except ε (List β)
  | [] => ([], Except.ok [])
  | x :: xs =>
    match func x with
    | Except.error e => ([x], Except.error e)
    | Except.ok b =>
      match async_transform func xs with
      | (tr, Except.error e) => (x :: tr, Except.error e)
      | (tr, Except.ok bs) => (x :: tr, Except.ok (b :: bs))

/-- Embedding of seastar::when_all_succeed over a list of already-started
futures: await all; if any failed, the returned future fails with one of
the failures (deterministically the first in this embedding); otherwise it
carries the list of results in order. -/
def when_all_succeed {β ε : Type} : List (Except ε β) → Except ε (List β)
  | [] => Except.ok []
  | Except.error e :: _ => Except.error e
  | Except.ok b :: rest =>
    match when_all_succeed rest with
    | Except.error e => Except.error e
    | Except.ok bs => Except.ok (b :: bs)

/-- Embedding of ssx::parallel_transform (future-util.h lines 127-145):
std::transform invokes func on every element of the input, collecting the
returned futures into a vector, before when_all_succeed awaits any of
them. The first component is the trace of elements on which func was
invoked. -/
def parallel_transform {α β ε : Type} (func : α → Except ε β)
    (xs : List α) : List α × Except ε (List β) :=
  (xs, when_all_succeed (xs.map func))

end Ssx

namespace Ssx

/-- The trace of invoked elements of async_transform is a prefix of the
input: elements are invoked in input order and never beyond the first
failure. -/
theorem async_transform_fst_app {α β ε : Type} (f : α → Except ε β) :
    ∀ xs : List α, ∃ ys, (async_transform f xs).1 ++ ys = xs := by
  intro xs
  induction xs with
  | nil => exact ⟨[], rfl⟩
  | cons x t ih =>
    cases hfx : f x with
    | error e => exact ⟨t, by simp [async_transform, hfx]⟩
    | ok b =>
      rcases ih with ⟨ys, hys⟩
      rcases h : async_transform f t with ⟨tr, r⟩
      rw [h] at hys
      cases r with
      | error e =>
        exact ⟨ys, by simp [async_transform, hfx, h]; simpa using hys⟩
      | ok bs =>
        exact ⟨ys, by simp [async_transform, hfx, h]; simpa using hys⟩

/-- On an all-successful input, async_transform invokes every element in
order and collects the results in input order. -/
theorem async_transform_ok {α β ε : Type} (f : α → Except ε β)
    (xs : List α) (bs : List β)
    (h : List.Forall₂ (fun x b => f x = Except.ok b) xs bs) :
    async_transform f xs = (xs, Except.ok bs) := by
  induction h with
  | nil => rfl
  | cons h1 h2 ih => simp [async_transform, h1, ih]

/-- If the first failure is at index i, async_transform invokes exactly the
first i+1 elements and returns that failure. -/
theorem async_transform_err {α β ε : Type} (f : α → Except ε β) :
    ∀ (xs : List α) (i : Nat) (e : ε) (h : i < xs.length),
      f (xs.get ⟨i, h⟩) = Except.error e →
      (∀ (j : Nat) (hj : j < i),
        ∃ b, f (xs.get ⟨j, Nat.lt_trans hj h⟩) = Except.ok b) →
      async_transform f xs = (xs.take (i + 1), Except.error e) := by
  intro xs
  induction xs with
  | nil => intro i e h; exact absurd h (Nat.not_lt_zero i)
  | cons x t ih =>
    intro i e h hfe hok
    cases i with
    | zero =>
      have hx : f x = Except.error e := hfe
      simp [async_transform, hx]
    | succ k =>
      rcases hok 0 (Nat.succ_pos k) with ⟨b, hb⟩
      have hx : f x = Except.ok b := hb
      have hk : k < t.length := Nat.lt_of_succ_lt_succ h
      have hrec : async_transform f t = (t.take (k + 1), Except.error e) := by
        refine ih k e hk hfe ?_
        intro j hj
        exact hok (j + 1) (Nat.succ_lt_succ hj)
      simp [async_transform, hx, hrec]

/-- C6: async_transform over a finite sequence invokes the user function
sequentially — the invocation trace is a prefix of the input, extended to
element i+1 only after the awaitable for element i completed successfully;
on success it returns the results in input order; if the first failing
invocation is at index i, no later element is invoked and the returned
future fails with that failure, discarding results collected so far. -/
theorem async_transform_spec {α β ε : Type} (f : α → Except ε β)
    (xs : List α) :
    (∃ ys, (async_transform f xs).1 ++ ys = xs)
  ∧ (∀ bs : List β, List.Forall₂ (fun x b => f x = Except.ok b) xs bs →
      async_transform f xs = (xs, Except.ok bs))
  ∧ (∀ (i : Nat) (e : ε) (h : i < xs.length),
      f (xs.get ⟨i, h⟩) = Except.error e →
      (∀ (j : Nat) (hj : j < i),
        ∃ b, f (xs.get ⟨j, Nat.lt_trans hj h⟩) = Except.ok b) →
      async_transform f xs = (xs.take (i + 1), Except.error e)) :=
  ⟨async_transform_fst_app f xs,
   fun bs hbs => async_transform_ok f xs bs hbs,
   fun i e h hfe hok => async_transform_err f xs i e h hfe hok⟩

/-- Witness for C6: with a function failing exactly on input 2, the run over
the sequence 1, 2, 3 invokes only 1 and 2 and returns the failure. -/
theorem async_transform_spec_witness :
    async_transform
        (fun n => if n = 2 then Except.error (0 : Nat) else Except.ok (n + 1))
        [1, 2, 3]
      = ([1, 2], Except.error 0) :=
  (async_transform_spec
      (fun n => if n = 2 then Except.error (0 : Nat) else Except.ok (n + 1))
      [1, 2, 3]).2.2 1 0 (by decide) rfl
    (by
      intro j hj
      have hj0 : j = 0 := Nat.lt_one_iff.mp hj
      subst hj0
      exact ⟨2, rfl⟩)

end Ssx

namespace Ssx

/-- when_all_succeed on an all-successful list of futures yields the list
of results in order. -/
theorem when_all_succeed_ok {β ε : Type} :
    ∀ {l : List (Except ε β)} {bs : List β},
      List.Forall₂ (fun r b => r = Except.ok b) l bs →
      when_all_succeed l = Except.ok bs := by
  intro l bs h
  induction h with
  | nil => rfl
  | cons h1 h2 ih =>
    subst h1
    simp [when_all_succeed, ih]

/-- when_all_succeed on a list containing a failed future fails with one of
the contained failures. -/
theorem when_all_succeed_err {β ε : Type} :
    ∀ l : List (Except ε β), (∃ r ∈ l, ∃ e : ε, r = Except.error e) →
      ∃ e : ε, (Except.error e) ∈ l ∧ when_all_succeed l = Except.error e := by
  intro l
  induction l with
  | nil => rintro ⟨r, hr, -⟩; exact absurd hr (List.not_mem_nil r)
  | cons r rest ih =>
    rintro ⟨r0, hmem, e0, he0⟩
    cases r with
    | error e =>
      exact ⟨e, List.mem_cons_self _ _, by simp [when_all_succeed]⟩
    | ok b =>
      have hrest : ∃ r ∈ rest, ∃ e : ε, r = Except.error e := by
        rcases List.mem_cons.mp hmem with hcase | hcase
        · subst hcase; exact absurd he0 (by simp)
        · exact ⟨r0, hcase, e0, he0⟩
      rcases ih hrest with ⟨e, hememb, heq⟩
      exact ⟨e, List.mem_cons_of_mem _ hememb, by simp [when_all_succeed, heq]⟩

/-- C7: parallel_transform invokes the user function on every element of
the input before awaiting any of the resulting awaitables (the invocation
trace is always the whole input); on success the returned vector holds the
results in input order; if any invocation fails, the returned future fails
with one of the failures, all invocations having been started. -/
theorem parallel_transform_spec {α β ε : Type} (f : α → Except ε β)
    (xs : List α) :
    (parallel_transform f xs).1 = xs
  ∧ (∀ bs : List β, List.Forall₂ (fun x b => f x = Except.ok b) xs bs →
      (parallel_transform f xs).2 = Except.ok bs)
  ∧ ((∃ x ∈ xs, ∃ e : ε, f x = Except.error e) →
      ∃ x ∈ xs, ∃ e : ε, f x = Except.error e ∧
        (parallel_transform f xs).2 = Except.error e) := by
  refine ⟨rfl, ?_, ?_⟩
  · intro bs hbs
    have hmap : List.Forall₂ (fun r b => r = Except.ok b) (xs.map f) bs := by
      rw [List.forall₂_map_left_iff]
      exact hbs
    exact when_all_succeed_ok hmap
  · rintro ⟨x, hx, e, he⟩
    have hexists : ∃ r ∈ xs.map f, ∃ e0 : ε, r = Except.error e0 :=
      ⟨f x, List.mem_map_of_mem f hx, e, he⟩
    rcases when_all_succeed_err (xs.map f) hexists with ⟨e1, hmem, heq⟩
    rcases List.mem_map.mp hmem with ⟨x1, hx1, hfx1⟩
    exact ⟨x1, hx1, e1, hfx1, heq⟩

/-- Witness for C7: with a function failing exactly on input 2, the run over
the sequence 1, 2, 3 starts all three invocations and fails with the
failure of input 2. -/
theorem parallel_transform_spec_witness :
    ∃ x ∈ [1, 2, 3], ∃ e : Nat,
      (fun n => if n = 2 then Except.error (0 : Nat) else Except.ok n) x
          = Except.error e
      ∧ (parallel_transform
          (fun n => if n = 2 then Except.error (0 : Nat) else Except.ok n)
          [1, 2, 3]).2 = Except.error e :=
  (parallel_transform_spec
      (fun n => if n = 2 then Except.error (0 : Nat) else Except.ok n)
      [1, 2, 3]).2.2 ⟨2, by decide, 0, rfl⟩

end Ssx

namespace Kafka

/-- Kafka error codes used by the join-group dispatcher. -/
inductive ErrorCode where
  | none_error
  | unsupported_version
  | other (n : Nat)
deriving Repr, DecidableEq

/-- Decoded join_group request data: the dispatcher inspects only
group_instance_id; the remaining decoded fields are abstracted as a
payload. -/
structure JoinGroupRequestData where
  group_instance_id : Option String
  payload : Nat
deriving Repr, DecidableEq

/-- A join_group request as built from the request context. -/
structure JoinGroupRequest where
  data : JoinGroupRequestData
deriving Repr, DecidableEq

/-- A join_group response: its error code and abstracted body. -/
structure JoinGroupResponse where
  error_code : ErrorCode
  payload : Nat
deriving Repr, DecidableEq

/-- The join_group_response(error_code) constructor: an error response
carrying the given code and an empty body. -/
def errorResponse (e : ErrorCode) : JoinGroupResponse := ⟨e, 0⟩

/-- Embedding of join_group_api::process (join_group_request.cc lines
37-56): if the decoded request data carries a group_instance_id, respond
with a join_group_response built from error_code::unsupported_version
without consulting the group manager; otherwise delegate to the group
manager's join_group and respond with the reply it returns. ctx.respond is
the identity on the response; the group manager is a parameter. The Bool
records whether the group manager's join_group was invoked. -/
def join_group_process
    (join_group : JoinGroupRequest → JoinGroupResponse)
    (req : JoinGroupRequest) : JoinGroupResponse × Bool :=
  if req.data.group_instance_id.isSome then
    (errorResponse ErrorCode.unsupported_version, false)
  else
    (join_group req, true)

/-- C10: join_group_api::process responds with unsupported_version and
never invokes the group manager's join_group whenever the decoded data
carries a group_instance_id; without a group_instance_id it delegates to
the group manager and responds with the reply it returns. -/
theorem join_group_process_spec
    (jg : JoinGroupRequest → JoinGroupResponse) (req : JoinGroupRequest) :
    (∀ gid : String, req.data.group_instance_id = some gid →
      join_group_process jg req
        = (errorResponse ErrorCode.unsupported_version, false)
      ∧ (join_group_process jg req).1.error_code
        = ErrorCode.unsupported_version)
  ∧ (req.data.group_instance_id = none →
      join_group_process jg req = (jg req, true)) := by
  constructor
  · intro gid hgid
    have hs : req.data.group_instance_id.isSome = true := by
      simp [hgid]
    constructor
    · simp [join_group_process, hs]
    · simp [join_group_process, hs, errorResponse]
  · intro hnone
    have hs : req.data.group_instance_id.isSome = false := by
      simp [hnone]
    simp [join_group_process, hs]

/-- Witness for C10: a request with group instance id g is answered with
unsupported_version and no manager call; the same request without the id is
answered by the manager's reply. -/
theorem join_group_process_spec_witness :
    join_group_process (fun _ => ⟨ErrorCode.other 5, 42⟩)
        ⟨⟨some "g", 1⟩⟩
      = (errorResponse ErrorCode.unsupported_version, false)
  ∧ join_group_process (fun _ => ⟨ErrorCode.other 5, 42⟩)
        ⟨⟨none, 1⟩⟩
      = (⟨ErrorCode.other 5, 42⟩, true) :=
  ⟨((join_group_process_spec (fun _ => ⟨ErrorCode.other 5, 42⟩)
      ⟨⟨some "g", 1⟩⟩).1 "g" rfl).1,
   (join_group_process_spec (fun _ => ⟨ErrorCode.other 5, 42⟩)
      ⟨⟨none, 1⟩⟩).2 rfl⟩

end Kafka

namespace Rpc

/-- A construction event during the construction of rpc::client<Protocol...>
(transport.h lines 209-231): construction of the i-th facade base class,
recording the object id of the transport whose reference it is passed, or
construction of the transport member with a given object id. -/
inductive CtorEvent where
  | facadeCtor (i : Nat) (transportRef : Nat)
  | transportCtor (id : Nat)
deriving Repr, DecidableEq

/-- Embedding of the C++ construction order of rpc::client: per the language
rules, direct base classes are initialized in declaration order before any
non-static data member, regardless of the order of the mem-initializer
list. The client declares the facade bases Protocol... first and the member
_transport after, and its constructor initializer Protocol(_transport)...
passes each facade a reference to the single member _transport (object
id 0), which is itself constructed last. -/
def clientCtorEvents (nFacades : Nat) : List CtorEvent :=
  ((List.range nFacades).map (fun i => CtorEvent.facadeCtor i 0))
    ++ [CtorEvent.transportCtor 0]

/-- Test for the transport-member construction event. -/
def isTransportCtor : CtorEvent → Bool
  | CtorEvent.transportCtor _ => true
  | CtorEvent.facadeCtor _ _ => false

/-- Counterexample for C5: for a client with one facade, the facade is
constructed strictly before the transport member, not after it — C++
initializes base-class subobjects before non-static data members. -/
theorem client_facade_ctor_cex :
    (clientCtorEvents 1).indexOf (CtorEvent.facadeCtor 0 0)
      < (clientCtorEvents 1).indexOf (CtorEvent.transportCtor 0)
  ∧ ¬ ((clientCtorEvents 1).indexOf (CtorEvent.transportCtor 0)
      < (clientCtorEvents 1).indexOf (CtorEvent.facadeCtor 0 0)) := by
  decide

/-- C5 (amended): in the variadic client composition, each protocol facade
is constructed with a borrowed reference to the single transport owned by
the client (there is exactly one transport construction event and every
facade references it), and each facade is constructed strictly before the
transport it references: the i-th facade occupies position i and the
transport position n in the construction order. -/
theorem client_ctor_order (n : Nat) :
    (∀ i : Nat, i < n →
      (clientCtorEvents n).get? i = some (CtorEvent.facadeCtor i 0))
  ∧ (clientCtorEvents n).get? n = some (CtorEvent.transportCtor 0)
  ∧ (∀ i r : Nat, CtorEvent.facadeCtor i r ∈ clientCtorEvents n → r = 0)
  ∧ ((clientCtorEvents n).filter isTransportCtor).length = 1 := by
  refine ⟨?_, ?_, ?_, ?_⟩
  · intro i hi
    have hlen : i < ((List.range n).map
        (fun i => CtorEvent.facadeCtor i 0)).length := by
      simpa using hi
    rw [clientCtorEvents, List.get?_append hlen, List.get?_map,
      List.get?_range hi]
    rfl
  · have hlen : ((List.range n).map
        (fun i => CtorEvent.facadeCtor i 0)).length ≤ n := by simp
    rw [clientCtorEvents, List.get?_append_right hlen]
    simp
  · intro i r hmem
    rcases List.mem_append.mp hmem with hmem | hmem
    · rcases List.mem_map.mp hmem with ⟨j, hj, hje⟩
      cases hje
      rfl
    · exact absurd (List.mem_singleton.mp hmem) (by simp)
  · rw [clientCtorEvents, List.filter_append]
    have h1 : ((List.range n).map
        (fun i => CtorEvent.facadeCtor i 0)).filter isTransportCtor = [] := by
      rw [List.filter_eq_nil]
      intro a ha
      rcases List.mem_map.mp ha with ⟨j, hj, hje⟩
      subst hje
      simp [isTransportCtor]
    rw [h1]
    rfl

/-- Witness for C5 (amended): for a client with two facades the first
facade is at construction position 0 and the transport at position 2. -/
theorem client_ctor_order_witness :
    (clientCtorEvents 2).get? 0 = some (CtorEvent.facadeCtor 0 0)
  ∧ (clientCtorEvents 2).get? 2 = some (CtorEvent.transportCtor 0) :=
  ⟨(client_ctor_order 2).1 0 (by decide), (client_ctor_order 2).2.1⟩

end Rpc

namespace Rpc

/-- The per-call transport state touched by do_send: the correlation id
counter _correlation_idx, the correlation table _correlations (ids holding
a registered completion slot), the ordered request queue _requests_queue
(sequence and payload size of each queued netbuf), and the remaining units
of the memory semaphore _memory. -/
structure SendState where
  correlation_idx : Nat
  correlations : List Nat
  requests_queue : List (Nat × Nat)
  mem_available : Nat
deriving Repr, DecidableEq

/-- Units a call must acquire from the memory semaphore before enqueue:
min(payload_size, ceiling). Modelled from the spec: the body of
transport::do_send is not part of the excerpt (transport.h only declares
it); the admission rule follows the ordered-send-queue section of the
spec. -/
def memUnits (payload_size ceiling : Nat) : Nat := min payload_size ceiling

/-- Modelled from the spec: the body of transport::do_send is not part of
the excerpt (transport.h lines 117-118 only declare it). Per the spec,
do_send first waits for min(payload_size, ceiling) units of the memory
semaphore within the call's timeout; whether they became available in time
is the input acquired. On success it allocates the next correlation id,
registers the completion slot in the correlation table and enqueues the
netbuf under its sequence; on admission failure the call fails with
client_request_timeout and no correlation id is consumed and no slot is
inserted. The result carries the allocated correlation id. -/
def do_send (st : SendState) (seq payload_size ceiling : Nat)
    (acquired : Bool) : Except Errc Nat × SendState :=
  if acquired then
    (Except.ok (st.correlation_idx + 1),
      ⟨st.correlation_idx + 1,
        (st.correlation_idx + 1) :: st.correlations,
        (seq, payload_size) :: st.requests_queue,
        st.mem_available - memUnits payload_size ceiling⟩)
  else
    (Except.error Errc.client_request_timeout, st)

/-- C4: before its netbuf is enqueued a call acquires
min(payload_size, ceiling) semaphore units; if the acquisition does not
succeed within the call's timeout, the call fails with
client_request_timeout, no correlation id is consumed and no completion
slot is inserted — the whole state, in particular the correlation table and
the correlation counter, is unchanged; on successful admission the call
consumes exactly min(payload_size, ceiling) units and enqueues. -/
theorem do_send_admission (st : SendState) (seq p c : Nat) :
    memUnits p c = min p c
  ∧ do_send st seq p c false = (Except.error Errc.client_request_timeout, st)
  ∧ (do_send st seq p c false).2.correlations = st.correlations
  ∧ (do_send st seq p c false).2.correlation_idx = st.correlation_idx
  ∧ (do_send st seq p c true).2.mem_available
      = st.mem_available - min p c
  ∧ (do_send st seq p c true).2.requests_queue
      = (seq, p) :: st.requests_queue :=
  ⟨rfl, rfl, rfl, rfl, rfl, rfl⟩

end Rpc

namespace Rpc

/-- An event in the life of the ordered send queue. enter: a call enters
send_typed and the per-transport _seq counter is incremented immediately,
before any suspension point (transport.h line 181, auto seq = ++_seq).
serdone s: the serialization future of the call holding sequence s
completes and the call inserts its netbuf into the ordered _requests_queue
(do_send). dispatch: the dispatcher writes the next frame to the wire and
records it in _last_seq. Modelled from the spec: the bodies of do_send and
dispatch_send are not in the excerpt (transport.h lines 117-119 only
declare them, and declare the _last_seq bookkeeping field); the
queue/dispatch discipline follows the ordered-send-queue section of the
spec — the dispatcher pops the smallest queued sequence and, to meet the
contract that sequence s is written only after every smaller sequence, is
sendable only when that smallest sequence is exactly _last_seq + 1. -/
inductive SendEvent where
  | enter
  | serdone (s : Nat)
  | dispatch
deriving Repr, DecidableEq

/-- The send-side state of the transport: the _seq counter, the _last_seq
watermark of frames already written, the sequences sitting serialized in
the ordered _requests_queue, and the wire — the list of frame sequences in
the order they were written to the socket. -/
structure QueueState where
  seq : Nat
  last_seq : Nat
  queue : List Nat
  wire : List Nat
deriving Repr, DecidableEq

/-- The freshly constructed transport: counter at zero, nothing queued,
nothing written. -/
def initQueueState : QueueState := ⟨0, 0, [], []⟩

/-- One step of the send-side state machine; none when the event cannot
fire in the given state. -/
def queueStep (st : QueueState) : SendEvent → Option QueueState
  | SendEvent.enter => some ⟨st.seq + 1, st.last_seq, st.queue, st.wire⟩
  | SendEvent.serdone s =>
      if s ≤ st.seq ∧ st.last_seq < s ∧ s ∉ st.queue then
        some ⟨st.seq, st.last_seq, s :: st.queue, st.wire⟩
      else none
  | SendEvent.dispatch =>
      if st.last_seq + 1 ∈ st.queue then
        some ⟨st.seq, st.last_seq + 1, st.queue.erase (st.last_seq + 1),
          st.wire ++ [st.last_seq + 1]⟩
      else none

/-- Run a list of events from a state. -/
def queueRun (st : QueueState) : List SendEvent → Option QueueState
  | [] => some st
  | e :: es =>
    match queueStep st e with
    | none => none
    | some st1 => queueRun st1 es

/-- Invariant of the send-side state machine: the wire holds exactly the
sequences 1..last_seq in order, the watermark never exceeds the counter,
every queued sequence is assigned but not yet written, and the queue has no
duplicates. -/
def QueueInv (st : QueueState) : Prop :=
  st.wire = List.range' 1 st.last_seq
  ∧ st.last_seq ≤ st.seq
  ∧ (∀ s ∈ st.queue, st.last_seq < s ∧ s ≤ st.seq)
  ∧ st.queue.Nodup

/-- The sequences handed out by successive enter events, in entry order:
each entering call receives the incremented counter. -/
def assignedSeqs : List SendEvent → Nat → List Nat
  | [], _ => []
  | SendEvent.enter :: es, c => (c + 1) :: assignedSeqs es (c + 1)
  | SendEvent.serdone _ :: es, c => assignedSeqs es c
  | SendEvent.dispatch :: es, c => assignedSeqs es c

/-- Every sequence assigned from counter value c exceeds c. -/
theorem assignedSeqs_gt : ∀ (es : List SendEvent) (c : Nat),
    ∀ x ∈ assignedSeqs es c, c < x := by
  intro es
  induction es with
  | nil => intro c x hx; exact absurd hx (List.not_mem_nil x)
  | cons e es ih =>
    intro c x hx
    cases e with
    | enter =>
      rcases List.mem_cons.mp hx with rfl | hx
      · exact Nat.lt_succ_self c
      · exact Nat.lt_of_succ_lt (ih (c + 1) x hx)
    | serdone s => exact ih c x hx
    | dispatch => exact ih c x hx

/-- Sequences are assigned in strictly increasing entry order. -/
theorem assignedSeqs_pairwise : ∀ (es : List SendEvent) (c : Nat),
    List.Pairwise (fun a b => a < b) (assignedSeqs es c) := by
  intro es
  induction es with
  | nil => intro c; exact List.Pairwise.nil
  | cons e es ih =>
    intro c
    cases e with
    | enter =>
      exact List.pairwise_cons.mpr ⟨fun x hx => assignedSeqs_gt es (c + 1) x hx, ih (c + 1)⟩
    | serdone s => exact ih c
    | dispatch => exact ih c

/-- The step of the send-side machine preserves its invariant. -/
theorem queueStep_inv {st st' : QueueState} {e : SendEvent}
    (hinv : QueueInv st) (h : queueStep st e = some st') : QueueInv st' := by
  obtain ⟨hw, hls, hq, hnd⟩ := hinv
  cases e with
  | enter =>
    simp [queueStep] at h
    subst h
    exact ⟨hw, Nat.le_succ_of_le hls,
      fun s hs => ⟨(hq s hs).1, Nat.le_succ_of_le (hq s hs).2⟩, hnd⟩
  | serdone s =>
    by_cases hc : s ≤ st.seq ∧ st.last_seq < s ∧ s ∉ st.queue
    · simp only [queueStep, if_pos hc, Option.some.injEq] at h
      subst h
      refine ⟨hw, hls, ?_, ?_⟩
      · intro x hx
        rcases List.mem_cons.mp hx with rfl | hx
        · exact ⟨hc.2.1, hc.1⟩
        · exact hq x hx
      · exact List.nodup_cons.mpr ⟨hc.2.2, hnd⟩
    · simp [queueStep, if_neg hc] at h
  | dispatch =>
    by_cases hc : st.last_seq + 1 ∈ st.queue
    · simp only [queueStep, if_pos hc, Option.some.injEq] at h
      subst h
      refine ⟨?_, (hq _ hc).2, ?_, hnd.erase _⟩
      · show st.wire ++ [st.last_seq + 1] = List.range' 1 (st.last_seq + 1)
        rw [hw, List.range'_1_concat]
        simp [Nat.add_comm]
      · intro x hx
        have hx' : x ≠ st.last_seq + 1 ∧ x ∈ st.queue :=
          (List.Nodup.mem_erase_iff hnd).mp hx
        have h2 := hq x hx'.2
        have h3 : x ≠ st.last_seq + 1 := hx'.1
        have h4 : st.last_seq < x := h2.1
        exact ⟨show st.last_seq + 1 < x by omega, h2.2⟩
    · simp [queueStep, if_neg hc] at h

/-- Running any event list preserves the invariant. -/
theorem queueRun_inv : ∀ (es : List SendEvent) (st st' : QueueState),
    QueueInv st → queueRun st es = some st' → QueueInv st' := by
  intro es
  induction es with
  | nil =>
    intro st st' hinv h
    simp [queueRun] at h
    subst h
    exact hinv
  | cons e es ih =>
    intro st st' hinv h
    cases hstep : queueStep st e with
    | none => simp [queueRun, hstep] at h
    | some st1 =>
      simp only [queueRun, hstep] at h
      exact ih st1 st' (queueStep_inv hinv hstep) h

/-- The initial state satisfies the invariant. -/
theorem initQueueState_inv : QueueInv initQueueState :=
  ⟨rfl, Nat.le_refl 0, fun s hs => absurd hs (List.not_mem_nil s),
    List.nodup_nil⟩

/-- C1: in every reachable state of the send path, the per-transport seq
counter hands strictly increasing sequences to calls in the order they
enter send_typed (the counter is incremented on entry, before any
suspension point), and the wire holds exactly the sequences 1..last_seq in
ascending order — a frame with sequence s is written strictly after every
frame with a smaller sequence and strictly before every frame with a larger
one, regardless of the order in which the serialization futures (serdone
events) completed. -/
theorem send_order_preserved (es : List SendEvent) (st : QueueState)
    (h : queueRun initQueueState es = some st) :
    st.wire = List.range' 1 st.last_seq
  ∧ (∀ (i j : Nat) (hi : i < st.wire.length) (hj : j < st.wire.length),
      i < j → st.wire.get ⟨i, hi⟩ < st.wire.get ⟨j, hj⟩)
  ∧ (∀ (i j : Nat) (hi : i < st.wire.length) (hj : j < st.wire.length),
      st.wire.get ⟨i, hi⟩ < st.wire.get ⟨j, hj⟩ → i < j)
  ∧ List.Pairwise (fun a b => a < b) (assignedSeqs es 0) := by
  have hinv := queueRun_inv es initQueueState st initQueueState_inv h
  obtain ⟨hw, -, -, -⟩ := hinv
  have hget : ∀ (k : Nat) (hk : k < st.wire.length),
      st.wire.get ⟨k, hk⟩ = 1 + k := by
    intro k hk
    rw [List.get_of_eq hw ⟨k, hk⟩, List.get_range']
    simp [Nat.add_comm]
  refine ⟨hw, ?_, ?_, assignedSeqs_pairwise es 0⟩
  · intro i j hi hj hij
    rw [hget i hi, hget j hj]
    omega
  · intro i j hi hj hlt
    rw [hget i hi, hget j hj] at hlt
    omega

/-- Witness for C1: two calls enter in order receiving sequences 1 and 2,
their serializations complete out of order (2 before 1), and the dispatcher
still writes the wire in ascending order 1, 2. -/
theorem send_order_preserved_witness :
    (⟨2, 2, [], [1, 2]⟩ : QueueState).wire = List.range' 1 2 :=
  (send_order_preserved
    [SendEvent.enter, SendEvent.enter, SendEvent.serdone 2,
      SendEvent.serdone 1, SendEvent.dispatch, SendEvent.dispatch]
    ⟨2, 2, [], [1, 2]⟩ (by decide)).1

end Rpc

namespace Rpc

/-- How a pending completion slot was resolved: response arrival, its timer
firing, or forced failure while the transport tears down. -/
inductive SlotOutcome where
  | delivered
  | timedOut
  | torndown
deriving Repr, DecidableEq

/-- An event on the correlation table _correlations. register id: a call is
admitted, allocates correlation id and inserts a fresh slot. respond id: a
response frame with that correlation id arrives (a stale id is dropped).
timeoutFire id: the call's timer fires (firing after resolution is an
idempotent no-op). teardown: fail_outstanding_futures resolves every
outstanding slot with an error and clears the table. Modelled from the
spec: response_handler and the body of fail_outstanding_futures are not in
the excerpt (transport.h lines 112-127 declare the table, the handler type
and the teardown hook); the operations follow the response-handler-table
section of the spec. -/
inductive CorrEvent where
  | register (id : Nat)
  | respond (id : Nat)
  | timeoutFire (id : Nat)
  | teardown
deriving Repr, DecidableEq

/-- Correlation-table state: every id ever registered, the ids whose slot
is still pending, and the resolution log (most recent first). -/
structure CorrState where
  registered : List Nat
  table : List Nat
  resolved : List (Nat × SlotOutcome)
deriving Repr, DecidableEq

/-- Freshly constructed transport: no slot registered. -/
def initCorrState : CorrState := ⟨[], [], []⟩

/-- Resolve the pending slot id with the given outcome: remove it from the
table and log the resolution. -/
def resolveOne (st : CorrState) (id : Nat) (out : SlotOutcome) : CorrState :=
  ⟨st.registered, st.table.erase id, (id, out) :: st.resolved⟩

/-- One step of the correlation-table machine; none only when a correlation
id is reused, which the monotonic correlation counter rules out. -/
def corrStep (st : CorrState) : CorrEvent → Option CorrState
  | CorrEvent.register id =>
      if id ∈ st.registered then none
      else some ⟨id :: st.registered, id :: st.table, st.resolved⟩
  | CorrEvent.respond id =>
      if id ∈ st.table then some (resolveOne st id SlotOutcome.delivered)
      else some st
  | CorrEvent.timeoutFire id =>
      if id ∈ st.table then some (resolveOne st id SlotOutcome.timedOut)
      else some st
  | CorrEvent.teardown =>
      some ⟨st.registered, [],
        (st.table.map (fun id => (id, SlotOutcome.torndown))) ++ st.resolved⟩

/-- Run a list of correlation events from a state. -/
def corrRun (st : CorrState) : List CorrEvent → Option CorrState
  | [] => some st
  | e :: es =>
    match corrStep st e with
    | none => none
    | some st1 => corrRun st1 es

/-- Invariant of the correlation table: registered ids and pending ids are
duplicate-free, pending and resolved ids are registered, no pending slot is
already resolved, no id is resolved twice, and every registered id is
either pending or resolved. -/
def CorrInv (st : CorrState) : Prop :=
  st.registered.Nodup
  ∧ st.table.Nodup
  ∧ (∀ id ∈ st.table, id ∈ st.registered)
  ∧ (∀ id ∈ st.table, id ∉ st.resolved.map Prod.fst)
  ∧ (st.resolved.map Prod.fst).Nodup
  ∧ (∀ id ∈ st.registered, id ∈ st.table ∨ id ∈ st.resolved.map Prod.fst)
  ∧ (∀ x ∈ st.resolved.map Prod.fst, x ∈ st.registered)

/-- Resolving a pending slot preserves the invariant. -/
theorem resolveOne_inv {st : CorrState} {id : Nat} {out : SlotOutcome}
    (hinv : CorrInv st) (hmem : id ∈ st.table) :
    CorrInv (resolveOne st id out) := by
  obtain ⟨h1, h2, h3, h4, h5, h6, h7⟩ := hinv
  refine ⟨h1, h2.erase id, ?_, ?_, ?_, ?_, ?_⟩
  · intro x hx
    exact h3 x (List.mem_of_mem_erase hx)
  · intro x hx
    have hx' : x ≠ id ∧ x ∈ st.table := (List.Nodup.mem_erase_iff h2).mp hx
    simp only [resolveOne, List.map_cons, List.mem_cons]
    push_neg
    exact ⟨hx'.1, h4 x hx'.2⟩
  · exact List.nodup_cons.mpr ⟨h4 id hmem, h5⟩
  · intro x hx
    rcases h6 x hx with hxt | hxr
    · by_cases hxid : x = id
      · subst hxid
        right
        exact List.mem_cons_self _ _
      · left
        exact (List.Nodup.mem_erase_iff h2).mpr ⟨hxid, hxt⟩
    · right
      exact List.mem_cons_of_mem _ hxr
  · intro x hx
    rcases List.mem_cons.mp hx with rfl | hx
    · exact h3 x hmem
    · exact h7 x hx

/-- The correlation-table step preserves the invariant. -/
theorem corrStep_inv {st st' : CorrState} {e : CorrEvent}
    (hinv : CorrInv st) (h : corrStep st e = some st') : CorrInv st' := by
  obtain ⟨h1, h2, h3, h4, h5, h6, h7⟩ := hinv
  cases e with
  | register id =>
    by_cases hg : id ∈ st.registered
    · simp [corrStep, if_pos hg] at h
    · simp only [corrStep, if_neg hg, Option.some.injEq] at h
      subst h
      refine ⟨List.nodup_cons.mpr ⟨hg, h1⟩,
        List.nodup_cons.mpr ⟨fun hm => hg (h3 id hm), h2⟩, ?_, ?_, h5, ?_, ?_⟩
      · intro x hx
        rcases List.mem_cons.mp hx with rfl | hx
        · exact List.mem_cons_self _ _
        · exact List.mem_cons_of_mem _ (h3 x hx)
      · intro x hx
        rcases List.mem_cons.mp hx with rfl | hx
        · intro hr
          exact hg (h7 x hr)
        · exact h4 x hx
      · intro x hx
        rcases List.mem_cons.mp hx with rfl | hx
        · left
          exact List.mem_cons_self _ _
        · rcases h6 x hx with hxt | hxr
          · left
            exact List.mem_cons_of_mem _ hxt
          · right
            exact hxr
      · intro x hx
        exact List.mem_cons_of_mem _ (h7 x hx)
  | respond id =>
    by_cases hg : id ∈ st.table
    · simp only [corrStep, if_pos hg, Option.some.injEq] at h
      subst h
      exact resolveOne_inv ⟨h1, h2, h3, h4, h5, h6, h7⟩ hg
    · simp only [corrStep, if_neg hg, Option.some.injEq] at h
      subst h
      exact ⟨h1, h2, h3, h4, h5, h6, h7⟩
  | timeoutFire id =>
    by_cases hg : id ∈ st.table
    · simp only [corrStep, if_pos hg, Option.some.injEq] at h
      subst h
      exact resolveOne_inv ⟨h1, h2, h3, h4, h5, h6, h7⟩ hg
    · simp only [corrStep, if_neg hg, Option.some.injEq] at h
      subst h
      exact ⟨h1, h2, h3, h4, h5, h6, h7⟩
  | teardown =>
    simp only [corrStep, Option.some.injEq] at h
    subst h
    have hmapfst : ∀ l : List Nat,
        (l.map (fun id => (id, SlotOutcome.torndown))).map Prod.fst = l := by
      intro l
      induction l with
      | nil => rfl
      | cons a l ih => simp [ih]
    refine ⟨h1, List.nodup_nil, ?_, ?_, ?_, ?_, ?_⟩
    · intro x hx
      exact absurd hx (List.not_mem_nil x)
    · intro x hx
      exact absurd hx (List.not_mem_nil x)
    · show ((st.table.map (fun id => (id, SlotOutcome.torndown)))
          ++ st.resolved).map Prod.fst |>.Nodup
      rw [List.map_append, hmapfst]
      exact List.nodup_append.mpr ⟨h2, h5, fun a ha hr => h4 a ha hr⟩
    · intro x hx
      right
      show x ∈ ((st.table.map (fun id => (id, SlotOutcome.torndown)))
          ++ st.resolved).map Prod.fst
      rw [List.map_append, hmapfst]
      rcases h6 x hx with hxt | hxr
      · exact List.mem_append.mpr (Or.inl hxt)
      · exact List.mem_append.mpr (Or.inr hxr)
    · intro x hx
      rw [List.map_append, hmapfst] at hx
      rcases List.mem_append.mp hx with hxt | hxr
      · exact h3 x hxt
      · exact h7 x hxr

/-- Running any correlation event list preserves the invariant. -/
theorem corrRun_inv : ∀ (es : List CorrEvent) (st st' : CorrState),
    CorrInv st → corrRun st es = some st' → CorrInv st' := by
  intro es
  induction es with
  | nil =>
    intro st st' hinv h
    simp [corrRun] at h
    subst h
    exact hinv
  | cons e es ih =>
    intro st st' hinv h
    cases hstep : corrStep st e with
    | none => simp [corrRun, hstep] at h
    | some st1 =>
      simp only [corrRun, hstep] at h
      exact ih st1 st' (corrStep_inv hinv hstep) h

/-- The fresh table satisfies the invariant. -/
theorem initCorrState_inv : CorrInv initCorrState :=
  ⟨List.nodup_nil, List.nodup_nil,
    fun x hx => absurd hx (List.not_mem_nil x),
    fun x hx => absurd hx (List.not_mem_nil x),
    List.nodup_nil,
    fun x hx => absurd hx (List.not_mem_nil x),
    fun x hx => absurd hx (List.not_mem_nil x)⟩

/-- C3: in every reachable state of the correlation table, no id is
resolved twice (each caller observes at most one completion), the table
never holds an already-resolved slot, every registered id is either still
pending or resolved by exactly one of response arrival, timeout firing or
teardown, and after running fail_outstanding_futures (teardown) on the
reached state no pending slot remains and every registered call has been
resolved exactly once — never both, never neither. -/
theorem correlation_exactly_once (es : List CorrEvent) (st : CorrState)
    (h : corrRun initCorrState es = some st) :
    (st.resolved.map Prod.fst).Nodup
  ∧ (∀ id ∈ st.table, id ∉ st.resolved.map Prod.fst)
  ∧ (∀ id ∈ st.registered, id ∈ st.table ∨ id ∈ st.resolved.map Prod.fst)
  ∧ (∀ st' : CorrState, corrStep st CorrEvent.teardown = some st' →
      st'.table = [] ∧
      ∀ id ∈ st'.registered, (st'.resolved.map Prod.fst).count id = 1) := by
  have hinv := corrRun_inv es initCorrState st initCorrState_inv h
  obtain ⟨h1, h2, h3, h4, h5, h6, h7⟩ := hinv
  refine ⟨h5, h4, h6, ?_⟩
  intro st' hstep
  have hinv' : CorrInv st' := corrStep_inv ⟨h1, h2, h3, h4, h5, h6, h7⟩ hstep
  obtain ⟨g1, g2, g3, g4, g5, g6, g7⟩ := hinv'
  have htable : st'.table = [] := by
    simp only [corrStep, Option.some.injEq] at hstep
    subst hstep
    rfl
  refine ⟨htable, ?_⟩
  intro id hid
  rcases g6 id hid with hpend | hres
  · rw [htable] at hpend
    exact absurd hpend (List.not_mem_nil id)
  · exact List.count_eq_one_of_mem g5 hres

/-- Witness for C3: register correlation ids 7 and 9, deliver the response
for 7, then tear down; in the reached state no id is resolved twice. -/
theorem correlation_exactly_once_witness :
    ((⟨[9, 7], [],
        [(9, SlotOutcome.torndown), (7, SlotOutcome.delivered)]⟩ :
      CorrState).resolved.map Prod.fst).Nodup :=
  (correlation_exactly_once
    [CorrEvent.register 7, CorrEvent.register 9, CorrEvent.respond 7,
      CorrEvent.teardown]
    ⟨[9, 7], [], [(9, SlotOutcome.torndown), (7, SlotOutcome.delivered)]⟩
    (by decide)).1

end Rpc
